import Mathlib

/-!
Shallow embedding of the retrieval core of the annas-mcp repository
(`internal/anna`: filename sanitizer, metadata parser, book search parsing,
two-phase DOI resolution, and the download engine), together with theorems
checking the specification's claims against it.

Strings are modelled as Lean `String` (lists of Unicode scalar values).
Go indexes strings by byte; every indexing operation embedded here is used by
the source only in ways where byte positions and rune positions delimit the
same substring (index-of followed by slicing at that index, prefix tests,
and a length cutoff), so the rune-level model coincides with the byte-level
code on every property stated below.  Case mapping is modelled on ASCII; the
Go code uses Unicode-aware mappings, which agree on all ASCII inputs, and
the format whitelist contains no letter with a non-ASCII case-folding
partner (no K or S), so the (?i) regex match is exactly ASCII folding.
-/

/-- Character class of the Go regex `[<>:"/\\|?*\x00-\x1f]` used in
`unsafeFilenameChars` (anna.go). -/
def isUnsafeChar (c : Char) : Bool :=
  decide (c = '<' ∨ c = '>' ∨ c = ':' ∨ c = '"' ∨ c = '/' ∨ c = '\\' ∨
    c = '|' ∨ c = '?' ∨ c = '*' ∨ c.toNat ≤ 31)

/-- `unsafeFilenameChars.ReplaceAllString(filename, "_")`: the regex matches
one character at a time, so the replacement is a character map. -/
def replaceUnsafe (l : List Char) : List Char :=
  l.map (fun c => if isUnsafeChar c then '_' else c)

/-- `strings.ReplaceAll(safe, "..", "_")`: replace the leftmost occurrence,
continue scanning after the replacement. -/
def replaceDotDot : List Char → List Char
  | [] => []
  | [c] => [c]
  | c1 :: c2 :: rest =>
    if c1 = '.' ∧ c2 = '.' then '_' :: replaceDotDot rest
    else c1 :: replaceDotDot (c2 :: rest)

/-- Does the character list contain `".."` (two adjacent dots)? -/
def hasDotDot : List Char → Bool
  | [] => false
  | [_] => false
  | c1 :: c2 :: rest => decide (c1 = '.' ∧ c2 = '.') || hasDotDot (c2 :: rest)

/-- Go (Unix) `filepath.Base`: `""` maps to `"."`; otherwise strip trailing
separators, keep everything after the last separator, and map an all-separator
path to `"/"`. -/
def filepathBase (l : List Char) : List Char :=
  if l = [] then ['.']
  else
    let l1 := (l.reverse.dropWhile (fun c => c == '/')).reverse
    let l2 := (l1.reverse.takeWhile (fun c => c != '/')).reverse
    if l2 = [] then ['/'] else l2

/-- `sanitizeFilename` (anna.go lines 90-104) on character lists. -/
def sanitizeL (l : List Char) : List Char :=
  let safe1 := replaceUnsafe l
  let safe2 := replaceDotDot safe1
  let safe3 := filepathBase safe2
  if 200 < safe3.length then safe3.take 200 else safe3

/-- `sanitizeFilename` on strings. -/
def sanitizeFilename (s : String) : String := ⟨sanitizeL s.data⟩

/-- Whitespace class of Go `unicode.IsSpace` (`strings.TrimSpace`). -/
def isGoSpace (c : Char) : Bool :=
  let n := c.toNat
  (decide (9 ≤ n) && decide (n ≤ 13)) || decide (n = 32) || decide (n = 0x85) ||
  decide (n = 0xA0) || decide (n = 0x1680) ||
  (decide (0x2000 ≤ n) && decide (n ≤ 0x200A)) || decide (n = 0x2028) ||
  decide (n = 0x2029) || decide (n = 0x202F) || decide (n = 0x205F) ||
  decide (n = 0x3000)

/-- Go `strings.TrimSpace`. -/
def goTrimSpace (s : String) : String :=
  ⟨((s.data.dropWhile isGoSpace).reverse.dropWhile isGoSpace).reverse⟩

/-- Go `strings.TrimPrefix`. -/
def goTrimPrefixS (pre s : String) : String :=
  if pre.data.isPrefixOf s.data then ⟨s.data.drop pre.data.length⟩ else s

/-- First position of `needle` in a character list (Go `strings.Index`,
`none` standing for Go's -1; positions count scalar values, which the source
only uses to delimit the same substring that the byte position delimits). -/
def firstIndexOfL (needle : List Char) : List Char → Option Nat
  | [] => if needle.isPrefixOf ([] : List Char) then some 0 else none
  | c :: rest =>
    if needle.isPrefixOf (c :: rest) then some 0
    else (firstIndexOfL needle rest).map (· + 1)

/-- Go `strings.Contains`. -/
def containsS (s sub : String) : Bool := (firstIndexOfL sub.data s.data).isSome

/-- First `n` characters of a string (Go slice `s[:n]`). -/
def strTake (s : String) (n : Nat) : String := ⟨s.data.take n⟩

/-- ASCII lower-casing of one character; Go `strings.ToLower` is
Unicode-aware but agrees with this on ASCII input. -/
def asciiToLower (c : Char) : Char :=
  if 'A' ≤ c ∧ c ≤ 'Z' then Char.ofNat (c.toNat + 32) else c

/-- ASCII upper-casing of one character; Go `strings.ToUpper` is
Unicode-aware but agrees with this on ASCII input. -/
def asciiToUpperChar (c : Char) : Char :=
  if 'a' ≤ c ∧ c ≤ 'z' then Char.ofNat (c.toNat - 32) else c

/-- Go `strings.ToLower` (ASCII model). -/
def goToLower (s : String) : String := ⟨s.data.map asciiToLower⟩

/-- Go `strings.ToUpper` (ASCII model). -/
def goToUpper (s : String) : String := ⟨s.data.map asciiToUpperChar⟩

/-- Go `strings.Split` worker: split around each non-overlapping occurrence
of `sep`, scanning left to right.  `fuel` starts at the list length and
strictly bounds the recursion (the scan consumes at least one character per
step, so the fuel is never exhausted). -/
def goSplitAux (sep : List Char) : Nat → List Char → List Char → List (List Char)
  | _, acc, [] => [acc.reverse]
  | 0, acc, l => [acc.reverse ++ l]
  | fuel + 1, acc, c :: rest =>
    if sep.isPrefixOf (c :: rest) then
      acc.reverse :: goSplitAux sep fuel [] (List.drop (sep.length - 1) rest)
    else
      goSplitAux sep fuel (c :: acc) rest

/-- Go `strings.Split` (with a non-empty separator, the only way the source
calls it). -/
def goSplit (sep s : String) : List String :=
  (goSplitAux sep.data s.data.length [] s.data).map List.asString

/-- Digit class of the Go regex `\d`. -/
def isDigitCh (c : Char) : Bool := decide ('0' ≤ c ∧ c ≤ '9')

/-- Whitespace class of the Go (RE2) regex `\s`, i.e. `[\t\n\f\r ]`. -/
def isPerlSpace (c : Char) : Bool :=
  decide (c = ' ' ∨ c = '\t' ∨ c = '\n' ∨ c.toNat = 12 ∨ c = '\r')

/-- Match of the size regex `\d+\.?\d*\s*(MB|KB|GB|TB)` anchored at the
start of the list.  The greedy deterministic parse is exact here: no
alternative needs backtracking because digits, `.` and spaces cannot begin
a unit suffix. -/
def sizeMatchAt (l : List Char) : Bool :=
  let ds := l.takeWhile isDigitCh
  let r1 := l.dropWhile isDigitCh
  if ds.isEmpty then false
  else
    let r2 := match r1 with
      | '.' :: rest => rest
      | _ => r1
    let r3 := r2.dropWhile isDigitCh
    let r4 := r3.dropWhile isPerlSpace
    "MB".data.isPrefixOf r4 || "KB".data.isPrefixOf r4 ||
      "GB".data.isPrefixOf r4 || "TB".data.isPrefixOf r4

/-- Unanchored match of the size regex (`sizeRegex.MatchString`). -/
def sizeMatch : List Char → Bool
  | [] => false
  | c :: rest => sizeMatchAt (c :: rest) || sizeMatch rest

/-- Word-character class of the RE2 `\b` assertion: `[0-9A-Za-z_]`. -/
def isWordChar (c : Char) : Bool :=
  decide (('0' ≤ c ∧ c ≤ '9') ∨ ('a' ≤ c ∧ c ≤ 'z') ∨ ('A' ≤ c ∧ c ≤ 'Z') ∨ c = '_')

/-- Alternatives of the format regex
`(?i)\b(EPUB|PDF|MOBI|AZW3|AZW|DJVU|CBZ|CBR|FB2|DOCX?|TXT)\b` in the
engine's preference order (`DOCX?` greedily prefers `DOCX` over `DOC`). -/
def formatTokens : List (List Char) :=
  ["EPUB".data, "PDF".data, "MOBI".data, "AZW3".data, "AZW".data, "DJVU".data,
   "CBZ".data, "CBR".data, "FB2".data, "DOCX".data, "DOC".data, "TXT".data]

/-- Case-insensitive literal prefix match, returning the matched input
characters (original case) and the remainder. -/
def ciPrefix : List Char → List Char → Option (List Char × List Char)
  | [], l => some ([], l)
  | _ :: _, [] => none
  | t :: ts, c :: cs =>
    if asciiToLower c = asciiToLower t then
      match ciPrefix ts cs with
      | some (m, r) => some (c :: m, r)
      | none => none
    else none

/-- Try the format alternatives in preference order at one position,
requiring the trailing word boundary. -/
def firstMatchTok : List (List Char) → List Char → Option (List Char)
  | [], _ => none
  | tok :: toks, l =>
    match ciPrefix tok l with
    | some (m, r) =>
      (match r with
       | [] => some m
       | c :: _ => if isWordChar c then firstMatchTok toks l else some m)
    | none => firstMatchTok toks l

/-- Leftmost-first scan of the format regex; `prev` carries the previous
character for the leading word-boundary check. -/
def formatFindAux : Option Char → List Char → Option (List Char)
  | _, [] => none
  | prev, c :: rest =>
    let boundary := match prev with
      | none => true
      | some p => ! isWordChar p
    match (if boundary then firstMatchTok formatTokens (c :: rest) else none) with
    | some m => some m
    | none => formatFindAux (some c) rest

/-- `formatRegex.FindStringSubmatch`'s group 1 (also deciding
`formatRegex.MatchString`). -/
def formatFind (l : List Char) : Option (List Char) := formatFindAux none l

/-- Loop body of `extractMetaInformation` over `parts[1:]`: scan for size
and format, stopping as soon as both are found. -/
def metaScan : List String → String → String → String × String
  | [], format, size => (format, size)
  | p :: rest, format, size =>
    let part := goTrimSpace p
    let size1 := if size = "" ∧ sizeMatch part.data then part else size
    let format1 :=
      if format = "" then
        match formatFind part.data with
        | some m => goToUpper ⟨m⟩
        | none => format
      else format
    if format1 ≠ "" ∧ size1 ≠ "" then (format1, size1)
    else metaScan rest format1 size1

/-- `extractMetaInformation` (anna.go lines 39-87): split the composite
metadata on
`" · "`, read the language from segment 0 (text before the first `[`,
checkmark and whitespace stripped), then scan the remaining segments for
format and size. -/
def extractMetaInformation (meta : String) : String × String × String :=
  let parts := goSplit " · " meta
  if parts.length < 3 then ("", "", "")
  else
    let languagePart := goTrimSpace (parts.getD 0 "")
    let language :=
      match firstIndexOfL "[".data languagePart.data with
      | some idx =>
        if 0 < idx then
          goTrimSpace (goTrimPrefixS "✅" (goTrimSpace (strTake languagePart idx)))
        else ""
      | none => ""
    let fs := metaScan (parts.drop 1) "" ""
    (language, fs.1, fs.2)

/-- `Book` (types.go). -/
structure Book where
  Language : String
  Format : String
  Size : String
  Title : String
  Publisher : String
  Authors : String
  URL : String
  Hash : String
deriving DecidableEq

/-- `Paper` (types.go). -/
structure Paper where
  DOI : String
  Title : String
  Authors : String
  Journal : String
  Size : String
  Hash : String
  DownloadURL : String
  SciHubURL : String
  PageURL : String
deriving DecidableEq

/-- `fastDownloadResponse` (types.go): decoded JSON envelope of the
fast-download API. -/
structure FastDownloadResponse where
  download_url : String
  error : String
deriving DecidableEq

/-- One collected search-result anchor together with the DOM context the
extraction loop of `FindBook` reads from it.  `hasParent` / `hasInfoDiv`
model the container-existence checks; the text fields model the selector
lookups. -/
structure RawElement where
  hasParent : Bool
  hasInfoDiv : Bool
  titleText : String
  authorsRaw : String
  publisherRaw : String
  metaText : String
  linkHref : String
  absLink : String
deriving DecidableEq

/-- Body of the extraction loop of `FindBook` (anna.go lines 161-219):
produce a `Book` from one collected element, or `none` when a skip
condition fires. -/
def parseBookElement (e : RawElement) : Option Book :=
  if ¬ e.hasParent then none
  else if ¬ e.hasInfoDiv then none
  else
    let title := goTrimSpace e.titleText
    if title = "" then none
    else
      let authors := goTrimSpace e.authorsRaw
      let publisher := goTrimSpace e.publisherRaw
      let meta := extractMetaInformation e.metaText
      let link := e.linkHref
      if link = "" then none
      else
        let hash := goTrimPrefixS "/md5/" link
        if hash = "" then none
        else
          some { Language := meta.1, Format := meta.2.1, Size := meta.2.2,
                 Title := title, Publisher := publisher, Authors := authors,
                 URL := e.absLink, Hash := hash }

/-- The extraction loop over all collected elements: skipped elements are
dropped, valid ones appended in order. -/
def parseBooks (es : List RawElement) : List Book := es.filterMap parseBookElement

/-- Environment and network outcome for one `FindBook` call: configuration
lookup, then the search-page visit producing the collected anchors (the
URL construction and logging are effect-free for the result). -/
structure FindBookWorld where
  env : Except String String
  visit : Except String (List RawElement)

/-- `FindBook` (anna.go lines 106-228): default the content filter, fetch
the search page, then run the extraction loop. -/
def findBook (_query content : String) (w : FindBookWorld) : Except String (List Book) :=
  let _contentFilter := if content = "" then "book_any" else content
  match w.env with
  | .error e => .error e
  | .ok _base =>
    match w.visit with
    | .error e => .error ("failed to visit search URL: " ++ e)
    | .ok elems => .ok (parseBooks elems)

/-- Go (Unix) `filepath.Ext` scan: walk the path backwards to the last
`.` of the final element. -/
def filepathExtAux : List Char → List Char → List Char
  | [], _ => []
  | c :: rest, acc =>
    if c = '/' then []
    else if c = '.' then '.' :: acc
    else filepathExtAux rest (c :: acc)

/-- Go (Unix) `filepath.Ext`. -/
def filepathExt (s : String) : String := ⟨filepathExtAux s.data.reverse []⟩

/-- Component processing of Go (Unix) `path.Clean` / `filepath.Clean`:
empty and `.` components vanish, `..` pops a non-`..` stack entry, a
leading `..` is dropped on rooted paths and kept otherwise. -/
def cleanStack (rooted : Bool) : List (List Char) → List (List Char) → List (List Char)
  | stack, [] => stack.reverse
  | stack, comp :: rest =>
    if comp = [] ∨ comp = ['.'] then cleanStack rooted stack rest
    else if comp = ['.', '.'] then
      match stack with
      | [] => if rooted then cleanStack rooted [] rest
              else cleanStack rooted [comp] rest
      | top :: stk =>
        if top = ['.', '.'] then cleanStack rooted (comp :: stack) rest
        else cleanStack rooted stk rest
    else cleanStack rooted (comp :: stack) rest

/-- Go (Unix) `filepath.Clean`. -/
def pathClean (p : String) : String :=
  if p = "" then "."
  else
    let rooted := decide (p.data.head? = some '/')
    let comps := cleanStack rooted [] (p.data.splitOn '/')
    if comps = [] then (if rooted then "/" else ".")
    else
      let joined := List.intercalate "/".data comps
      if rooted then ⟨'/' :: joined⟩ else ⟨joined⟩

/-- Go (Unix) `filepath.Join` of two elements: drop empty elements, join
with `/`, and `Clean` the result. -/
def filepathJoin (dir file : String) : String :=
  if dir = "" ∧ file = "" then ""
  else if dir = "" then pathClean file
  else if file = "" then pathClean dir
  else pathClean (dir ++ "/" ++ file)

/-- Network requests a download/lookup run issues, in order. -/
inductive NetEvent where
  | searchRequest (url : String)
  | detailRequest (url : String)
  | apiRequest (url : String)
  | fileRequest (url : String)
deriving DecidableEq

/-- File-system model: the set of paths at which a file exists.
`os.Create` adds the path (truncating an existing file keeps it present). -/
def createFile (fs : List String) (path : String) : List String :=
  if path ∈ fs then fs else path :: fs

/-- `os.Remove` on the model: the path no longer exists afterwards. -/
def removeFile (fs : List String) (path : String) : List String :=
  fs.filter (fun q => q != path)

/-- The write path shared verbatim by `Book.Download` (anna.go lines
306-343) and `Paper.Download` (lines 535-568): create the file, stream-copy
the body, sync; the deferred cleanup removes the file whenever success was
not reached.  A copy outcome is `Except (Nat × String) Nat`: bytes written
plus the message on failure, bytes written on success. -/
def downloadWritePath (fs : List String) (filePath : String)
    (createRes : Except String Unit) (copyRes : Except (Nat × String) Nat)
    (syncRes : Except String Unit) : Except String Unit × List String :=
  match createRes with
  | .error e => (.error ("failed to create file: " ++ e), fs)
  | .ok _ =>
    let fs1 := createFile fs filePath
    match copyRes with
    | .error we =>
      (.error ("failed to write file (wrote " ++ toString we.1 ++ " bytes): " ++ we.2),
       removeFile fs1 filePath)
    | .ok _written =>
      match syncRes with
      | .error e => (.error ("failed to sync file to disk: " ++ e), removeFile fs1 filePath)
      | .ok _ => (.ok (), fs1)

/-- An HTTP response: status code, status line text, the ≤512-byte
diagnostic body excerpt (`none` models a body read error), and the decoded
body relevant to the caller. -/
structure HttpResp (β : Type) where
  status : Nat
  statusText : String
  snippet : Option String
  body : β

/-- Outcome of one `client.Get` / `client.Do`. -/
inductive Fetch (β : Type) where
  | fail (msg : String)
  | ok (r : HttpResp β)

/-- Environment and network outcomes for one `Book.Download` run.  The
API response body is `Option FastDownloadResponse`, `none` modelling a JSON
decode failure. -/
structure BookWorld where
  env : Except String String
  api : Fetch (Option FastDownloadResponse)
  file : Fetch Unit
  createRes : Except String Unit
  copyRes : Except (Nat × String) Nat
  syncRes : Except String Unit

/-- Destination file name built by `Book.Download` (anna.go lines 289-300):
sanitized title (falling back to `untitled`) plus the merely lower-cased,
never sanitized, caller-supplied format (falling back to `bin`). -/
def bookDownloadFilename (b : Book) : String :=
  let safeTitle := sanitizeFilename b.Title
  let safeTitle1 := if safeTitle = "" then "untitled" else safeTitle
  let format := goToLower b.Format
  let format1 := if format = "" then "bin" else format
  safeTitle1 ++ "." ++ format1

/-- `Book.Download` (anna.go lines 230-344): resolve the fast-download URL
through the secret-keyed API, fetch the file, and run the shared write
path.  Returns the outcome, the network requests issued, and the final
file-system state. -/
def bookDownload (b : Book) (secretKey folderPath : String) (fs : List String)
    (w : BookWorld) : Except String Unit × List NetEvent × List String :=
  match w.env with
  | .error e => (.error ("failed to get environment: " ++ e), [], fs)
  | .ok base =>
    let apiURL := "https://" ++ base ++ "/dyn/api/fast_download.json?md5=" ++
      b.Hash ++ "&key=" ++ secretKey
    match w.api with
    | .fail e => (.error ("failed to fetch download URL: " ++ e),
                  [NetEvent.apiRequest apiURL], fs)
    | .ok r =>
      if r.status ≠ 200 then
        match r.snippet with
        | none =>
          (.error ("API request failed with status " ++ toString r.status ++ ": " ++
             r.statusText), [NetEvent.apiRequest apiURL], fs)
        | some bodyText =>
          (.error ("API request failed with status " ++ toString r.status ++ ": " ++
             r.statusText ++ " (body: " ++ bodyText ++ ")"),
           [NetEvent.apiRequest apiURL], fs)
      else
        match r.body with
        | none => (.error "failed to decode API response", [NetEvent.apiRequest apiURL], fs)
        | some apiResp =>
          if apiResp.download_url = "" then
            if apiResp.error ≠ "" then
              (.error ("API error: " ++ apiResp.error), [NetEvent.apiRequest apiURL], fs)
            else
              (.error "API returned empty download URL", [NetEvent.apiRequest apiURL], fs)
          else
            match w.file with
            | .fail e =>
              (.error ("failed to download file: " ++ e),
               [NetEvent.apiRequest apiURL, NetEvent.fileRequest apiResp.download_url], fs)
            | .ok fr =>
              if fr.status ≠ 200 then
                (.error ("download failed with status " ++ toString fr.status ++ ": " ++
                   fr.statusText),
                 [NetEvent.apiRequest apiURL, NetEvent.fileRequest apiResp.download_url], fs)
              else
                let filePath := filepathJoin folderPath (bookDownloadFilename b)
                let pr := downloadWritePath fs filePath w.createRes w.copyRes w.syncRes
                (pr.1,
                 [NetEvent.apiRequest apiURL, NetEvent.fileRequest apiResp.download_url],
                 pr.2)

/-- DOM values the phase-2 detail page offers to the `LookupDOI`
callbacks: `<title>` texts, description meta contents, `/search`-prefixed
anchors (text plus whether they contain the author-icon span), and
`div.text-gray-500` texts, each in document order. -/
structure DetailPage where
  titleTexts : List String
  metaDescs : List String
  searchAnchors : List (String × Bool)
  grayTexts : List String

/-- Environment and network outcomes for one `LookupDOI` run: the phase-1
search visit yields the hrefs of all anchors on the page (the `/md5/`
selector is applied by the resolver), the phase-2 visit yields the detail
page. -/
structure LookupWorld where
  env : Except String String
  search : Except String (List String)
  detail : Except String DetailPage

/-- Phase-1 hash extraction (anna.go lines 362-371): first anchor whose
href yields a non-empty hash after stripping `/md5/` wins. -/
def firstHash : List String → String
  | [] => ""
  | href :: rest =>
    let h := goTrimPrefixS "/md5/" href
    if h ≠ "" then h else firstHash rest

/-- Title callback (anna.go lines 403-408): keep text before `" - Anna"`
when that marker occurs at a positive index. -/
def applyDetailTitle (acc : String) (t : String) : String :=
  match firstIndexOfL " - Anna".data t.data with
  | some idx => if 0 < idx then goTrimSpace (strTake t idx) else acc
  | none => acc

/-- Description-meta callback (anna.go lines 410-421): the journal line is
the third `\n\n` segment when there are at least three, else the second,
else the raw content (each write overwrites). -/
def applyDetailJournal (_acc : String) (desc : String) : String :=
  let parts := goSplit "\n\n" desc
  if 3 ≤ parts.length then goTrimSpace (parts.getD 2 "")
  else if 2 ≤ parts.length then goTrimSpace (parts.getD 1 "")
  else goTrimSpace desc

/-- Author callback (anna.go lines 424-432): first icon-marked anchor
wins. -/
def applyDetailAuthors (acc : String) (a : String × Bool) : String :=
  if acc ≠ "" then acc
  else if a.2 then goTrimSpace a.1 else acc

/-- Size callback (anna.go lines 435-440): any text containing `MB` or
`KB` overwrites the size. -/
def applyDetailSize (acc : String) (t : String) : String :=
  if containsS t "MB" || containsS t "KB" then goTrimSpace t else acc

/-- Phase-2 enrichment: run every callback over its matched elements. -/
def applyDetail (p : Paper) (page : DetailPage) : Paper :=
  { p with
    Title := page.titleTexts.foldl applyDetailTitle p.Title,
    Journal := page.metaDescs.foldl applyDetailJournal p.Journal,
    Authors := page.searchAnchors.foldl applyDetailAuthors p.Authors,
    Size := page.grayTexts.foldl applyDetailSize p.Size }

/-- `LookupDOI` (anna.go lines 346-458): phase 1 resolves the DOI to a
hash via the SciDB page (fatal on visit failure, `NotFound` when no hash);
phase 2 enriches from the detail page (non-fatal on visit failure); the
download reference is the fixed `/scidb?doi=<doi>` template. -/
def lookupDOI (doi : String) (w : LookupWorld) : Except String Paper × List NetEvent :=
  match w.env with
  | .error e => (.error e, [])
  | .ok base =>
    let scidbURL := "https://" ++ base ++ "/scidb/" ++ doi
    match w.search with
    | .error e => (.error ("failed to lookup DOI: " ++ e), [NetEvent.searchRequest scidbURL])
    | .ok hrefs =>
      let hash := firstHash (hrefs.filter (fun h => "/md5/".data.isPrefixOf h.data))
      if hash = "" then
        (.error ("no paper found for DOI: " ++ doi), [NetEvent.searchRequest scidbURL])
      else
        let p0 : Paper :=
          { DOI := doi, Title := "", Authors := "", Journal := "", Size := "",
            Hash := hash, DownloadURL := "", SciHubURL := "", PageURL := scidbURL }
        let md5URL := "https://" ++ base ++ "/md5/" ++ hash
        let p1 := match w.detail with
          | .error _ => p0
          | .ok page => applyDetail p0 page
        (Except.ok { p1 with DownloadURL := "/scidb?doi=" ++ doi },
         [NetEvent.searchRequest scidbURL, NetEvent.detailRequest md5URL])

/-- Headers of the paper-download response that feed the extension
inference; `cdParse` models `mime.ParseMediaType` on the
Content-Disposition value (outer `none` = parse error, inner option =
`filename` parameter lookup), `ctExts` models `mime.ExtensionsByType`. -/
structure PaperRespBody where
  contentDisposition : String
  cdParse : Option (Option String)
  contentType : String
  ctExts : List String

/-- Environment and network outcomes for one `Paper.Download` run. -/
structure PaperWorld where
  env : Except String String
  newReq : Except String Unit
  resp : Fetch PaperRespBody
  createRes : Except String Unit
  copyRes : Except (Nat × String) Nat
  syncRes : Except String Unit

/-- Extension inference of `Paper.Download` (anna.go lines 504-519):
prefer the Content-Disposition filename's extension, else the first
Content-Type mapping, else `.pdf`. -/
def paperExt (b : PaperRespBody) : String :=
  if b.contentDisposition ≠ "" then
    match b.cdParse with
    | some (some fn) =>
      let e := filepathExt fn
      if e = "" then ".pdf" else e
    | some none => ".pdf"
    | none => ".pdf"
  else if b.contentType ≠ "" then
    match b.ctExts with
    | [] => ".pdf"
    | e :: _ => e
  else ".pdf"

/-- `Paper.Download` (anna.go lines 460-569): require a download
reference, qualify it against the host when relative, fetch it, infer the
extension, and run the shared write path. -/
def paperDownload (p : Paper) (folderPath : String) (fs : List String)
    (w : PaperWorld) : Except String Unit × List NetEvent × List String :=
  if p.DownloadURL = "" then
    (.error "no download URL available for this paper", [], fs)
  else
    match w.env with
    | .error e => (.error ("failed to get environment: " ++ e), [], fs)
    | .ok base =>
      let downloadURL :=
        if "http".data.isPrefixOf p.DownloadURL.data then p.DownloadURL
        else "https://" ++ base ++ p.DownloadURL
      match w.newReq with
      | .error e => (.error ("failed to create request: " ++ e), [], fs)
      | .ok _ =>
        match w.resp with
        | .fail e =>
          (.error ("failed to download paper: " ++ e),
           [NetEvent.fileRequest downloadURL], fs)
        | .ok r =>
          if r.status ≠ 200 then
            match r.snippet with
            | none =>
              (.error ("download failed with status " ++ toString r.status ++ ": " ++
                 r.statusText), [NetEvent.fileRequest downloadURL], fs)
            | some bodyText =>
              (.error ("download failed with status " ++ toString r.status ++ ": " ++
                 r.statusText ++ " (body: " ++ bodyText ++ ")"),
               [NetEvent.fileRequest downloadURL], fs)
          else
            let ext := paperExt r.body
            let name := if p.Title = "" then p.DOI else p.Title
            let safeName := sanitizeFilename name
            let safeName1 := if safeName = "" then "paper" else safeName
            let filePath := filepathJoin folderPath (safeName1 ++ ext)
            let pr := downloadWritePath fs filePath w.createRes w.copyRes w.syncRes
            (pr.1, [NetEvent.fileRequest downloadURL], pr.2)

/-- Concrete world: fast-download API answers 200 with an empty URL and the
error message `quota exceeded`. -/
def quotaWorld : BookWorld :=
  { env := Except.ok "annas-archive.org",
    api := Fetch.ok ⟨200, "200 OK", some "", some ⟨"", "quota exceeded"⟩⟩,
    file := Fetch.fail "unreached",
    createRes := Except.ok (), copyRes := Except.ok 0, syncRes := Except.ok () }

/-- Concrete lookup world whose phase-1 page has one `/md5/` anchor with an
empty hash. -/
def noHashWorld : LookupWorld :=
  ⟨Except.ok "annas-archive.org", Except.ok ["/md5/"], Except.error "unreached"⟩

/-- Concrete lookup world: phase 1 finds hash `abc`, phase 2's visit
fails. -/
def phase2FailWorld : LookupWorld :=
  ⟨Except.ok "annas-archive.org", Except.ok ["/md5/abc"], Except.error "timeout"⟩

/-- A fully valid collected search-result element. -/
def validElem : RawElement :=
  ⟨true, true, "A Title", "", "", "", "/md5/abc", "https://host/md5/abc"⟩

/-- Concrete search world returning one valid element. -/
def oneElemWorld : FindBookWorld := ⟨Except.ok "annas-archive.org", Except.ok [validElem]⟩

/-- Book whose caller-supplied format smuggles `..` path segments. -/
def traversalBook : Book := ⟨"", "../../../evil", "", "t", "", "", "", "hash"⟩

/-- Concrete world in which every step of `traversalBook`'s download
succeeds. -/
def traversalWorld : BookWorld :=
  { env := Except.ok "annas-archive.org",
    api := Fetch.ok ⟨200, "200 OK", some "", some ⟨"https://cdn.example/file", ""⟩⟩,
    file := Fetch.ok ⟨200, "200 OK", some "", ()⟩,
    createRes := Except.ok (), copyRes := Except.ok 100, syncRes := Except.ok () }

theorem hasDotDot_cons_of_ne (c : Char) (t : List Char) (hc : c ≠ '.') :
    hasDotDot (c :: t) = hasDotDot t := by
  cases t with
  | nil => simp [hasDotDot]
  | cons d t' => simp [hasDotDot, hc]

theorem replaceDotDot_cons_of_ne (c : Char) (t : List Char) (hc : c ≠ '.') :
    replaceDotDot (c :: t) = c :: replaceDotDot t := by
  cases t with
  | nil => simp [replaceDotDot]
  | cons d t' => simp [replaceDotDot, hc]

theorem hasDotDot_replaceDotDot (l : List Char) :
    hasDotDot (replaceDotDot l) = false := by
  induction l using replaceDotDot.induct with
  | case1 => simp [replaceDotDot, hasDotDot]
  | case2 c => simp [replaceDotDot, hasDotDot]
  | case3 c1 c2 rest h ih =>
    rw [replaceDotDot, if_pos h]
    rw [hasDotDot_cons_of_ne _ _ (by decide : ('_' : Char) ≠ '.')]
    exact ih
  | case4 c1 c2 rest h ih =>
    rw [replaceDotDot, if_neg h]
    by_cases hc1 : c1 = '.'
    · have hc2 : c2 ≠ '.' := fun hc2 => h ⟨hc1, hc2⟩
      rw [replaceDotDot_cons_of_ne c2 rest hc2]
      rw [replaceDotDot_cons_of_ne c2 rest hc2] at ih
      rw [hasDotDot]
      simp only [hc2, and_false, decide_False, Bool.false_or]
      exact ih
    · rw [hasDotDot_cons_of_ne c1 _ hc1]
      exact ih

theorem replaceDotDot_eq_self (l : List Char) (h : hasDotDot l = false) :
    replaceDotDot l = l := by
  induction l using replaceDotDot.induct with
  | case1 => rfl
  | case2 c => rfl
  | case3 c1 c2 rest hdots ih =>
    exfalso
    rw [hasDotDot, decide_eq_true hdots] at h
    simp at h
  | case4 c1 c2 rest hdots ih =>
    rw [replaceDotDot, if_neg hdots]
    rw [hasDotDot] at h
    have h2 : hasDotDot (c2 :: rest) = false := by
      cases hor : hasDotDot (c2 :: rest) <;> simp [hor] at h ⊢
    rw [ih h2]

theorem mem_replaceUnsafe (c : Char) (l : List Char) (h : c ∈ replaceUnsafe l) :
    isUnsafeChar c = false := by
  rw [replaceUnsafe, List.mem_map] at h
  obtain ⟨a, _, ha⟩ := h
  by_cases hu : isUnsafeChar a
  · rw [if_pos hu] at ha; rw [← ha]; decide
  · rw [if_neg hu] at ha; rw [← ha]; exact Bool.not_eq_true _ ▸ (by simpa using hu)

theorem mem_replaceDotDot (c : Char) (l : List Char) (h : c ∈ replaceDotDot l) :
    c ∈ l ∨ c = '_' := by
  induction l using replaceDotDot.induct with
  | case1 => simp [replaceDotDot] at h
  | case2 d => simp [replaceDotDot] at h; simp [h]
  | case3 c1 c2 rest hdots ih =>
    rw [replaceDotDot, if_pos hdots] at h
    rcases List.mem_cons.mp h with h1 | h1
    · right; exact h1
    · rcases ih h1 with h2 | h2
      · left; simp [h2]
      · right; exact h2
  | case4 c1 c2 rest hdots ih =>
    rw [replaceDotDot, if_neg hdots] at h
    rcases List.mem_cons.mp h with h1 | h1
    · left; simp [h1]
    · rcases ih h1 with h2 | h2
      · left; simp [List.mem_cons] at h2 ⊢; tauto
      · right; exact h2

theorem dropWhile_eq_self_of_all (p : Char → Bool) (l : List Char)
    (h : ∀ c ∈ l, p c = false) : l.dropWhile p = l := by
  cases l with
  | nil => rfl
  | cons a t =>
    rw [List.dropWhile_cons, h a (List.mem_cons_self a t)]
    simp

theorem takeWhile_eq_self_of_all (p : Char → Bool) (l : List Char)
    (h : ∀ c ∈ l, p c = true) : l.takeWhile p = l := by
  induction l with
  | nil => rfl
  | cons a t ih =>
    rw [List.takeWhile_cons, h a (List.mem_cons_self a t)]
    simp only [ite_true]
    rw [ih (fun c hc => h c (List.mem_cons_of_mem a hc))]

theorem filepathBase_no_slash (l : List Char) (hne : l ≠ [])
    (h : ∀ c ∈ l, c ≠ '/') : filepathBase l = l := by
  rw [filepathBase, if_neg hne]
  have hdrop : l.reverse.dropWhile (fun c => c == '/') = l.reverse := by
    apply dropWhile_eq_self_of_all
    intro c hc
    have := h c (List.mem_reverse.mp hc)
    simp [this]
  have htake : l.reverse.takeWhile (fun c => c != '/') = l.reverse := by
    apply takeWhile_eq_self_of_all
    intro c hc
    have := h c (List.mem_reverse.mp hc)
    simp [this]
  simp only [hdrop, List.reverse_reverse, htake]
  rw [if_neg (by simpa using hne)]

theorem hasDotDot_take (l : List Char) (h : hasDotDot l = false) :
    ∀ n, hasDotDot (l.take n) = false := by
  induction l using hasDotDot.induct with
  | case1 => intro n; simp [hasDotDot]
  | case2 c =>
    intro n
    cases n with
    | zero => simp [hasDotDot]
    | succ m => simp [hasDotDot]
  | case3 c1 c2 rest ih =>
    rw [hasDotDot] at h
    have hd : decide (c1 = '.' ∧ c2 = '.') = false := by
      cases hor : decide (c1 = '.' ∧ c2 = '.') <;> simp [hor] at h ⊢
    have h2 : hasDotDot (c2 :: rest) = false := by
      cases hor : hasDotDot (c2 :: rest) <;> simp [hor] at h ⊢
    intro n
    match n with
    | 0 => simp [hasDotDot]
    | 1 => simp [hasDotDot]
    | (m + 2) =>
      simp only [List.take_succ_cons]
      rw [hasDotDot, hd]
      have := ih h2 (m + 1)
      simpa using this

theorem replaceUnsafe_eq_self (l : List Char) :
    (∀ c ∈ l, isUnsafeChar c = false) → replaceUnsafe l = l := by
  induction l with
  | nil => intro _; rfl
  | cons a t ih =>
    intro h
    have ha : isUnsafeChar a = false := h a (List.mem_cons_self a t)
    have ht := ih (fun c hc => h c (List.mem_cons_of_mem a hc))
    simp only [replaceUnsafe, List.map_cons, ha, Bool.false_eq_true, if_false]
    simp only [replaceUnsafe] at ht
    rw [ht]

theorem filepathBase_ne_nil (l : List Char) : filepathBase l ≠ [] := by
  rw [filepathBase]
  split
  · simp
  · dsimp only
    split
    · simp
    · next h => exact h

theorem sanitize_base (l : List Char) :
    filepathBase (replaceDotDot (replaceUnsafe l)) = ['.'] ∨
    filepathBase (replaceDotDot (replaceUnsafe l)) = replaceDotDot (replaceUnsafe l) := by
  by_cases hnil : replaceDotDot (replaceUnsafe l) = []
  · left; rw [hnil]; rfl
  · right
    apply filepathBase_no_slash _ hnil
    intro c hc heq
    rcases mem_replaceDotDot c _ hc with h1 | h1
    · have := mem_replaceUnsafe c l h1
      rw [heq] at this
      exact absurd this (by decide)
    · rw [heq] at h1; exact absurd h1 (by decide)

theorem sanitizeL_no_unsafe (l : List Char) :
    ∀ c ∈ sanitizeL l, isUnsafeChar c = false := by
  intro c hc
  simp only [sanitizeL] at hc
  have hc2 : c ∈ filepathBase (replaceDotDot (replaceUnsafe l)) := by
    split at hc
    · exact List.take_subset _ _ hc
    · exact hc
  rcases sanitize_base l with hb | hb
  · rw [hb] at hc2
    simp only [List.mem_singleton] at hc2
    rw [hc2]; decide
  · rw [hb] at hc2
    rcases mem_replaceDotDot c _ hc2 with h1 | h1
    · exact mem_replaceUnsafe c l h1
    · rw [h1]; decide

theorem sanitizeL_no_dotdot (l : List Char) : hasDotDot (sanitizeL l) = false := by
  simp only [sanitizeL]
  have hbase : hasDotDot (filepathBase (replaceDotDot (replaceUnsafe l))) = false := by
    rcases sanitize_base l with hb | hb
    · rw [hb]; decide
    · rw [hb]; exact hasDotDot_replaceDotDot _
  split
  · exact hasDotDot_take _ hbase 200
  · exact hbase

theorem sanitizeL_ne_nil (l : List Char) : sanitizeL l ≠ [] := by
  simp only [sanitizeL]
  split
  · intro h
    rcases List.take_eq_nil_iff.mp h with h1 | h1
    · omega
    · exact filepathBase_ne_nil _ h1
  · exact filepathBase_ne_nil _

theorem sanitizeL_length_le (l : List Char) : (sanitizeL l).length ≤ 200 := by
  simp only [sanitizeL]
  split
  · rw [List.length_take]; omega
  · omega

theorem sanitizeL_no_slash (l : List Char) : ∀ c ∈ sanitizeL l, c ≠ '/' := by
  intro c hc heq
  have := sanitizeL_no_unsafe l c hc
  rw [heq] at this
  exact absurd this (by decide)

theorem sanitizeL_idem (l : List Char) : sanitizeL (sanitizeL l) = sanitizeL l := by
  have hu := sanitizeL_no_unsafe l
  have hd := sanitizeL_no_dotdot l
  have hn := sanitizeL_ne_nil l
  have hl := sanitizeL_length_le l
  have h1 : replaceUnsafe (sanitizeL l) = sanitizeL l := replaceUnsafe_eq_self _ hu
  have h2 : replaceDotDot (sanitizeL l) = sanitizeL l := replaceDotDot_eq_self _ hd
  have h3 : filepathBase (sanitizeL l) = sanitizeL l :=
    filepathBase_no_slash _ hn (sanitizeL_no_slash l)
  conv_lhs => rw [sanitizeL]
  simp only [h1, h2, h3]
  rw [if_neg (by omega)]

/-- C2: for every string containing `..` or one of `< > : " / \ | ? *` or a
control character, the output of `sanitizeFilename` contains none of those
characters and no literal `..` substring. -/
theorem sanitizeFilename_removes_dangerous (s : String)
    (_h : hasDotDot s.data = true ∨ ∃ c ∈ s.data, isUnsafeChar c = true) :
    hasDotDot (sanitizeFilename s).data = false ∧
    ∀ c ∈ (sanitizeFilename s).data, isUnsafeChar c = false :=
  ⟨sanitizeL_no_dotdot s.data, sanitizeL_no_unsafe s.data⟩

theorem sanitizeFilename_removes_dangerous_witness :
    hasDotDot (sanitizeFilename "a..b<c").data = false ∧
    ∀ c ∈ (sanitizeFilename "a..b<c").data, isUnsafeChar c = false :=
  sanitizeFilename_removes_dangerous "a..b<c" (Or.inl (by decide))

/-- C7: `sanitizeFilename` is idempotent. -/
theorem sanitizeFilename_idempotent (s : String) :
    sanitizeFilename (sanitizeFilename s) = sanitizeFilename s :=
  congrArg (fun d => (⟨d⟩ : String)) (sanitizeL_idem s.data)

/-- C8 as stated is false: `sanitizeFilename ""` is not the empty string
(the final-path-component step, Go `filepath.Base`, maps the empty path to
`"."`). -/
theorem sanitizeFilename_empty_counterexample : ¬ sanitizeFilename "" = "" := by
  decide

/-- C8 amended: `sanitizeFilename` applied to the empty string returns
`"."`. -/
theorem sanitizeFilename_empty : sanitizeFilename "" = "." := by decide

/-- C6: the metadata parser on `"✅ English [en] · EPUB · 0.7MB · 2015"`
returns language `English`, format `EPUB`, size `0.7MB`. -/
theorem extractMetaInformation_example :
    extractMetaInformation "✅ English [en] · EPUB · 0.7MB · 2015" =
      ("English", "EPUB", "0.7MB") := by
  decide

/-- C1: in the write path shared by `Book.Download` and `Paper.Download`,
whenever the destination file was created and then the streaming copy or
the durable sync fails, an error is returned and the partially-written
file is deleted, so no file exists at the target path afterwards. -/
theorem downloadWritePath_cleanup (fs : List String) (filePath : String)
    (copyRes : Except (Nat × String) Nat) (syncRes : Except String Unit)
    (hfail : (∃ we, copyRes = Except.error we) ∨ (∃ e, syncRes = Except.error e)) :
    (∃ msg, (downloadWritePath fs filePath (Except.ok ()) copyRes syncRes).1 =
      Except.error msg) ∧
    filePath ∉ (downloadWritePath fs filePath (Except.ok ()) copyRes syncRes).2 := by
  have hrem : filePath ∉ removeFile (createFile fs filePath) filePath := by
    simp [removeFile, List.mem_filter]
  rcases hfail with ⟨we, hc⟩ | ⟨e, hs⟩
  · subst hc
    exact ⟨⟨_, rfl⟩, hrem⟩
  · subst hs
    cases copyRes with
    | error we => exact ⟨⟨_, rfl⟩, hrem⟩
    | ok n => exact ⟨⟨_, rfl⟩, hrem⟩

theorem downloadWritePath_cleanup_witness :
    (∃ msg, (downloadWritePath [] "/dl/book.epub" (Except.ok ())
      (Except.error (5, "connection reset")) (Except.ok ())).1 = Except.error msg) ∧
    "/dl/book.epub" ∉ (downloadWritePath [] "/dl/book.epub" (Except.ok ())
      (Except.error (5, "connection reset")) (Except.ok ())).2 :=
  downloadWritePath_cleanup [] "/dl/book.epub" _ _ (Or.inl ⟨(5, "connection reset"), rfl⟩)

/-- C3: when the fast-download API answers 200 with an empty
`download_url`, `Book.Download` fails with `API error: <error>` when the
envelope's error field is non-empty and with the empty-response error
otherwise, and the second (file) request is never issued. -/
theorem bookDownload_empty_url (b : Book) (key folder : String) (fs : List String)
    (w : BookWorld) (base : String) (r : HttpResp (Option FastDownloadResponse))
    (resp : FastDownloadResponse)
    (henv : w.env = Except.ok base) (hapi : w.api = Fetch.ok r)
    (hst : r.status = 200) (hbody : r.body = some resp)
    (hurl : resp.download_url = "") :
    (resp.error ≠ "" →
      (bookDownload b key folder fs w).1 = Except.error ("API error: " ++ resp.error)) ∧
    (resp.error = "" →
      (bookDownload b key folder fs w).1 = Except.error "API returned empty download URL") ∧
    ∀ u, NetEvent.fileRequest u ∉ (bookDownload b key folder fs w).2.1 := by
  by_cases herr : resp.error = ""
  · refine ⟨fun hne => absurd herr hne, fun _ => ?_, fun u => ?_⟩ <;>
      simp [bookDownload, henv, hapi, hst, hbody, hurl, herr]
  · refine ⟨fun _ => ?_, fun heq => absurd heq herr, fun u => ?_⟩ <;>
      simp [bookDownload, henv, hapi, hst, hbody, hurl, herr]

theorem bookDownload_empty_url_witness :
    (("quota exceeded" : String) ≠ "" →
      (bookDownload ⟨"", "", "", "t", "", "", "", "hash"⟩ "key" "/dl" [] quotaWorld).1 =
        Except.error ("API error: " ++ "quota exceeded")) ∧
    (("quota exceeded" : String) = "" →
      (bookDownload ⟨"", "", "", "t", "", "", "", "hash"⟩ "key" "/dl" [] quotaWorld).1 =
        Except.error "API returned empty download URL") ∧
    ∀ u, NetEvent.fileRequest u ∉
      (bookDownload ⟨"", "", "", "t", "", "", "", "hash"⟩ "key" "/dl" [] quotaWorld).2.1 :=
  bookDownload_empty_url ⟨"", "", "", "t", "", "", "", "hash"⟩ "key" "/dl" [] quotaWorld
    "annas-archive.org" ⟨200, "200 OK", some "", some ⟨"", "quota exceeded"⟩⟩
    ⟨"", "quota exceeded"⟩ rfl rfl rfl rfl rfl

/-- C10: `Book.Download` joins the folder with the sanitized title plus a
dot plus the merely lower-cased format; a format carrying `..` segments
escapes the destination directory: with format `../../../evil` the file is
created at `/evil`, outside `/downloads`. -/
theorem bookDownload_format_escapes :
    filepathJoin "/downloads" (bookDownloadFilename traversalBook) = "/evil" ∧
    containsS traversalBook.Format ".." = true ∧
    containsS traversalBook.Format "/" = true ∧
    (bookDownload traversalBook "key" "/downloads" [] traversalWorld).1 = Except.ok () ∧
    "/evil" ∈ (bookDownload traversalBook "key" "/downloads" [] traversalWorld).2.2 ∧
    ¬ "/downloads/".data.isPrefixOf "/evil".data := by
  refine ⟨by decide, by decide, by decide, rfl, by decide, by decide⟩

theorem firstHash_eq_empty (l : List String)
    (h : ∀ s ∈ l, goTrimPrefixS "/md5/" s = "") : firstHash l = "" := by
  induction l with
  | nil => rfl
  | cons a t ih =>
    have ha := h a (List.mem_cons_self a t)
    rw [firstHash]
    simp only [ha, ne_eq, not_true_eq_false, if_false, ite_false]
    exact ih (fun s hs => h s (List.mem_cons_of_mem a hs))

/-- C4: when no `/md5/` anchor of the phase-1 page yields a non-empty
hash, `LookupDOI` returns the not-found error and never issues the
phase-2 detail request. -/
theorem lookupDOI_notFound (doi base : String) (hrefs : List String) (w : LookupWorld)
    (henv : w.env = Except.ok base) (hs : w.search = Except.ok hrefs)
    (hno : ∀ href ∈ hrefs.filter (fun h => "/md5/".data.isPrefixOf h.data),
      goTrimPrefixS "/md5/" href = "") :
    (lookupDOI doi w).1 = Except.error ("no paper found for DOI: " ++ doi) ∧
    ∀ u, NetEvent.detailRequest u ∉ (lookupDOI doi w).2 := by
  have hh : firstHash (hrefs.filter (fun h => "/md5/".data.isPrefixOf h.data)) = "" :=
    firstHash_eq_empty _ hno
  constructor
  · simp [lookupDOI, henv, hs, hh]
  · intro u
    simp [lookupDOI, henv, hs, hh]

theorem lookupDOI_notFound_witness :
    (lookupDOI "10.1000/xyz" noHashWorld).1 =
      Except.error ("no paper found for DOI: " ++ "10.1000/xyz") ∧
    ∀ u, NetEvent.detailRequest u ∉ (lookupDOI "10.1000/xyz" noHashWorld).2 :=
  lookupDOI_notFound "10.1000/xyz" "annas-archive.org" ["/md5/"] noHashWorld
    rfl rfl (by decide)

/-- C5: when phase 1 finds a non-empty hash and the phase-2 detail visit
fails, `LookupDOI` still returns (with no error) a record carrying the
hash, the catalog page URL, and the fixed `/scidb?doi=<doi>` download
reference, with the enrichment fields empty. -/
theorem lookupDOI_phase2_nonfatal (doi base e : String) (hrefs : List String)
    (w : LookupWorld) (henv : w.env = Except.ok base) (hs : w.search = Except.ok hrefs)
    (hd : w.detail = Except.error e)
    (hhash : firstHash (hrefs.filter (fun h => "/md5/".data.isPrefixOf h.data)) ≠ "") :
    (lookupDOI doi w).1 = Except.ok
      { DOI := doi, Title := "", Authors := "", Journal := "", Size := "",
        Hash := firstHash (hrefs.filter (fun h => "/md5/".data.isPrefixOf h.data)),
        DownloadURL := "/scidb?doi=" ++ doi, SciHubURL := "",
        PageURL := "https://" ++ base ++ "/scidb/" ++ doi } := by
  simp [lookupDOI, henv, hs, hd, hhash]

theorem lookupDOI_phase2_nonfatal_witness :
    (lookupDOI "10.1000/xyz" phase2FailWorld).1 = Except.ok
      { DOI := "10.1000/xyz", Title := "", Authors := "", Journal := "", Size := "",
        Hash := "abc", DownloadURL := "/scidb?doi=" ++ "10.1000/xyz", SciHubURL := "",
        PageURL := "https://" ++ "annas-archive.org" ++ "/scidb/" ++ "10.1000/xyz" } :=
  lookupDOI_phase2_nonfatal "10.1000/xyz" "annas-archive.org" "timeout" ["/md5/abc"]
    phase2FailWorld rfl rfl rfl (by decide)

theorem parseBookElement_valid (e : RawElement) (b : Book)
    (h : parseBookElement e = some b) : b.Title ≠ "" ∧ b.Hash ≠ "" := by
  simp only [parseBookElement] at h
  split at h
  · exact absurd h (by simp)
  · split at h
    · exact absurd h (by simp)
    · split at h
      · exact absurd h (by simp)
      · split at h
        · exact absurd h (by simp)
        · split at h
          · exact absurd h (by simp)
          · cases h
            refine ⟨?_, ?_⟩
            · simpa using ‹¬ goTrimSpace e.titleText = ""›
            · simpa using ‹¬ goTrimPrefixS "/md5/" e.linkHref = ""›

/-- C9: every book record `FindBook` returns has a non-empty title and a
non-empty hash; candidate elements with an empty title or hash are
skipped and never emitted. -/
theorem findBook_records_valid (query content : String) (w : FindBookWorld)
    (books : List Book) (hret : findBook query content w = Except.ok books) :
    ∀ b ∈ books, b.Title ≠ "" ∧ b.Hash ≠ "" := by
  intro b hb
  rw [findBook] at hret
  rcases henv : w.env with eEnv | base <;> rw [henv] at hret
  · exact absurd hret (by simp)
  · rcases hvisit : w.visit with eV | elems <;> rw [hvisit] at hret
    · exact absurd hret (by simp)
    · have hbooks : books = parseBooks elems := by
        cases hret; rfl
      subst hbooks
      rcases List.mem_filterMap.mp hb with ⟨e, _, he⟩
      exact parseBookElement_valid e b he

theorem findBook_records_valid_witness :
    ({ Language := "", Format := "", Size := "", Title := "A Title", Publisher := "",
       Authors := "", URL := "https://host/md5/abc", Hash := "abc" } : Book).Title ≠ "" ∧
    ({ Language := "", Format := "", Size := "", Title := "A Title", Publisher := "",
       Authors := "", URL := "https://host/md5/abc", Hash := "abc" } : Book).Hash ≠ "" :=
  findBook_records_valid "some query" "" oneElemWorld (parseBooks [validElem]) rfl
    { Language := "", Format := "", Size := "", Title := "A Title", Publisher := "",
      Authors := "", URL := "https://host/md5/abc", Hash := "abc" } (by decide)
